import Mathlib

/-!
Shallow embedding of the Medicodio document-upload service.

Source files embedded here:
* `server/src/documentProcessor.js` — file validation, MIME lookup, the
  Gemini response normalizer (markdown-fence stripping, `JSON.parse`) and
  the error classification of `processDocument`.
* the Express server (`index.js`) — the `/api/upload` handler, the multer
  file filter and size limit, and the error middleware.

Strings are modelled as `List Char` (`Str`).  JavaScript's `String` is
UTF-16; all string constants of this program are ASCII, where the two
models agree.  The external model call (`model.generateContent`) is a
collaborator: `processDocument` takes its outcome as an explicit
`Except Str Str` argument (error message, or raw response text) and
records in `called` whether the call was reached.
-/

/-- Strings of the embedded program, as lists of characters. -/
abbrev Str := List Char

/-- The backtick character (source files may not contain a literal backtick
outside string literals, so it is written by code point). -/
def tick : Char := Char.ofNat 96

/-- Boolean prefix test: `strStarts p s` is true iff `p` is a prefix of `s`.
Used to express the regex-literal matching of the fence-stripping step. -/
def strStarts : Str → Str → Bool
  | [], _ => true
  | _ :: _, [] => false
  | p :: ps, c :: cs => p == c && strStarts ps cs

/-- Boolean substring test, the embedding of JavaScript
`String.prototype.includes`. -/
def strHas (p : Str) : Str → Bool
  | [] => strStarts p []
  | c :: cs => strStarts p (c :: cs) || strHas p cs

theorem strStarts_iff (p s : Str) : strStarts p s = true ↔ p <+: s := by
  induction p generalizing s with
  | nil => simp [strStarts]
  | cons x xs ih =>
    cases s with
    | nil => simp [strStarts]
    | cons c cs =>
      simp [strStarts, List.cons_prefix_cons, ih, Bool.and_eq_true, beq_iff_eq]

theorem strHas_iff (p s : Str) : strHas p s = true ↔ p <:+: s := by
  induction s with
  | nil =>
    simp only [strHas, strStarts_iff, List.infix_nil, List.prefix_nil]
  | cons c cs ih =>
    simp [strHas, strStarts_iff, ih, List.infix_cons_iff]

/-- ASCII lowercasing of one character, the embedding of
`String.prototype.toLowerCase` (the program only ever lowercases file
extensions, which are ASCII). -/
def lowerChar (c : Char) : Char :=
  if 65 ≤ c.toNat ∧ c.toNat ≤ 90 then Char.ofNat (c.toNat + 32) else c

/-- Embedding of Node's `path.basename` for POSIX paths: the portion after
the last `/`. -/
def basename (p : Str) : Str :=
  (p.reverse.takeWhile (fun c => c != '/')).reverse

/-- Embedding of Node's `path.extname`: the portion of the basename from its
last `.` (inclusive) to the end, and `""` when the basename has no `.` or
its only relevant `.` is its first character (dotfiles). -/
def extname (p : Str) : Str :=
  let r := (basename p).reverse
  let pre := r.takeWhile (fun c => c != '.')
  match r.dropWhile (fun c => c != '.') with
  | [] => []
  | _ :: before => if before.isEmpty then [] else '.' :: pre.reverse

/-- `path.extname(filePath).toLowerCase()`, the expression the validator,
the MIME lookup and the result metadata all use. -/
def extLower (p : Str) : Str := (extname p).map lowerChar

/-- The `SUPPORTED_FORMATS` object of `documentProcessor.js`: extension to
MIME type, in source order. -/
def lookupFormat (ext : Str) : Option Str :=
  if ext = ".jpg".toList then some ("image/jpeg".toList)
  else if ext = ".jpeg".toList then some ("image/jpeg".toList)
  else if ext = ".png".toList then some ("image/png".toList)
  else if ext = ".gif".toList then some ("image/gif".toList)
  else if ext = ".bmp".toList then some ("image/bmp".toList)
  else if ext = ".webp".toList then some ("image/webp".toList)
  else if ext = ".pdf".toList then some ("application/pdf".toList)
  else none

/-- The keys of `SUPPORTED_FORMATS`, i.e. the extension allow-list. -/
def supportedExts : List Str :=
  [".jpg".toList, ".jpeg".toList, ".png".toList, ".gif".toList,
   ".bmp".toList, ".webp".toList, ".pdf".toList]

theorem lookupFormat_isSome_iff (ext : Str) :
    (lookupFormat ext).isSome = true ↔ ext ∈ supportedExts := by
  unfold lookupFormat supportedExts
  split_ifs with h1 h2 h3 h4 h5 h6 h7 <;> simp_all

/-- `MAX_FILE_SIZE` of `documentProcessor.js` (20 MiB). -/
def MAX_FILE_SIZE : Nat := 20 * 1024 * 1024

/-- The message thrown for an unsupported extension (`Object.keys(...)`
joined with `', '`). -/
def unsupportedFormatMsg (ext : Str) : Str :=
  "Unsupported file format: ".toList ++ ext ++
    ". Supported formats: .jpg, .jpeg, .png, .gif, .bmp, .webp, .pdf".toList

/-- The message thrown for an oversized file. -/
def tooLargeMsg (size : Nat) : Str :=
  "File too large: ".toList ++ (toString size).toList ++
    " bytes. Maximum allowed: ".toList ++ (toString MAX_FILE_SIZE).toList ++
    " bytes".toList

/-- Embedding of `validateFile`: the file's byte length comes from
`fs.stat` and is passed explicitly (the file is assumed to exist, as it
does when the handler calls the pipeline on a stored upload).  Checks run
in source order: size ceiling, emptiness, extension allow-list. -/
def validateFile (p : Str) (size : Nat) : Except Str Unit :=
  if size > MAX_FILE_SIZE then .error (tooLargeMsg size)
  else if size = 0 then .error ("File is empty".toList)
  else
    match lookupFormat (extLower p) with
    | none => .error (unsupportedFormatMsg (extLower p))
    | some _ => .ok ()

/-- Embedding of `getMimeType` (throws on unsupported extension). -/
def getMimeType (p : Str) : Except Str Str :=
  match lookupFormat (extLower p) with
  | none => .error (unsupportedFormatMsg (extLower p))
  | some m => .ok m

/-- Embedding of `isImageFile`. -/
def isImageFile (p : Str) : Bool :=
  [".jpg".toList, ".jpeg".toList, ".png".toList, ".gif".toList,
   ".bmp".toList, ".webp".toList].contains (extLower p)

/-- Embedding of `isPDFFile`. -/
def isPDFFile (p : Str) : Bool := extLower p == ".pdf".toList

/-- Embedding of `fileToGenerativePart` up to the point where it returns:
validation, then MIME lookup (reading the bytes and base64-encoding them
does not affect control flow and is not modelled).  Returns the MIME type. -/
def fileToGenerativePart (p : Str) (size : Nat) : Except Str Str :=
  match validateFile p size with
  | .error e => .error e
  | .ok _ => getMimeType p

/-- The first regex alternative `"```json\n"` — `'```json'` with its greedy
optional trailing newline taken. -/
def fj8 : Str := "```json\n".toList

/-- The first alternative without the optional newline. -/
def fj7 : Str := "```json".toList

/-- The second regex alternative with its greedy optional leading newline. -/
def nf4 : Str := "\n```".toList

/-- The second alternative without the optional newline: a bare fence. -/
def fence3 : Str := "```".toList

/-- One left-to-right pass of `text.replace(/```json\n?|\n?```/g, '')`,
with fuel (one unit per scanned position; `cleanReplace` supplies
`t.length`, which suffices because every step consumes at least one
character).  At each position the regex alternatives are tried in source
order with greedy optional newlines, exactly as the JS regex engine does;
on a match the scan resumes after the matched text. -/
def cleanReplaceF : Nat → Str → Str
  | 0, t => t
  | Nat.succ n, t =>
    match t with
    | [] => []
    | c :: rest =>
      if strStarts fj8 (c :: rest) then cleanReplaceF n ((c :: rest).drop 8)
      else if strStarts fj7 (c :: rest) then cleanReplaceF n ((c :: rest).drop 7)
      else if strStarts nf4 (c :: rest) then cleanReplaceF n ((c :: rest).drop 4)
      else if strStarts fence3 (c :: rest) then cleanReplaceF n ((c :: rest).drop 3)
      else c :: cleanReplaceF n rest

/-- Embedding of `text.replace(/```json\n?|\n?```/g, '')`. -/
def cleanReplace (t : Str) : Str := cleanReplaceF t.length t

/-- Whitespace trimmed by `String.prototype.trim` (ASCII part; the JS
method also trims some non-ASCII Unicode whitespace that cannot occur in
this program's inputs of interest). -/
def jsWsChar (c : Char) : Bool :=
  c == ' ' || c == '\t' || c == '\n' || c == '\r' || c == '\x0b' || c == '\x0c'

/-- Leading-whitespace removal. -/
def trimLeft (s : Str) : Str := s.dropWhile jsWsChar

/-- Trailing-whitespace removal. -/
def trimRight : Str → Str
  | [] => []
  | c :: cs =>
    match trimRight cs with
    | [] => if jsWsChar c then [] else [c]
    | d :: ds => c :: d :: ds

/-- Embedding of `String.prototype.trim`. -/
def jsTrim (s : Str) : Str := trimRight (trimLeft s)

/-- The `cleanText` expression of `processDocument`:
`text.replace(/```json\n?|\n?```/g, '').trim()`. -/
def cleanText (t : Str) : Str := jsTrim (cleanReplace t)

/-- Parsed JSON values, the shape `JSON.parse` produces.  Numeric literals
are kept as their source token: the code converts them to IEEE doubles,
whose rounding is outside this embedding, and no claim inspects a number.
Duplicate object keys are kept in order (JS objects would keep the last);
no claim involves duplicate keys. -/
inductive JVal : Type where
  | null : JVal
  | bool : Bool → JVal
  | num : Str → JVal
  | str : Str → JVal
  | arr : List JVal → JVal
  | obj : List (Str × JVal) → JVal

/-- JSON insignificant whitespace (ECMA-404): space, tab, LF, CR. -/
def jsonWs (c : Char) : Bool := c == ' ' || c == '\t' || c == '\n' || c == '\r'

/-- Skip insignificant whitespace. -/
def skipWs (s : Str) : Str := s.dropWhile jsonWs

/-- Decimal digit test. -/
def isDigit (c : Char) : Bool := 48 ≤ c.toNat && c.toNat ≤ 57

/-- Hex digit value, for `\uXXXX` escapes. -/
def hexVal (c : Char) : Option Nat :=
  if 48 ≤ c.toNat ∧ c.toNat ≤ 57 then some (c.toNat - 48)
  else if 97 ≤ c.toNat ∧ c.toNat ≤ 102 then some (c.toNat - 87)
  else if 65 ≤ c.toNat ∧ c.toNat ≤ 70 then some (c.toNat - 55)
  else none

/-- Parse the body of a JSON string after its opening quote; returns the
decoded characters and the remainder after the closing quote.  Raw control
characters below 0x20 are rejected, escapes are decoded, exactly as
`JSON.parse` does (surrogate pairing of `\u` escapes is not reassembled;
no claim uses `\u`). -/
def parseStringBody : Str → Option (Str × Str)
  | [] => none
  | c :: rest =>
    if c == '"' then some ([], rest)
    else if c == '\\' then
      match rest with
      | [] => none
      | e :: rest2 =>
        if e == '"' then (parseStringBody rest2).map (fun pr => ('"' :: pr.1, pr.2))
        else if e == '\\' then (parseStringBody rest2).map (fun pr => ('\\' :: pr.1, pr.2))
        else if e == '/' then (parseStringBody rest2).map (fun pr => ('/' :: pr.1, pr.2))
        else if e == 'b' then (parseStringBody rest2).map (fun pr => ('\x08' :: pr.1, pr.2))
        else if e == 'f' then (parseStringBody rest2).map (fun pr => ('\x0c' :: pr.1, pr.2))
        else if e == 'n' then (parseStringBody rest2).map (fun pr => ('\n' :: pr.1, pr.2))
        else if e == 'r' then (parseStringBody rest2).map (fun pr => ('\r' :: pr.1, pr.2))
        else if e == 't' then (parseStringBody rest2).map (fun pr => ('\t' :: pr.1, pr.2))
        else if e == 'u' then
          match rest2 with
          | h1 :: h2 :: h3 :: h4 :: rest3 =>
            match hexVal h1, hexVal h2, hexVal h3, hexVal h4 with
            | some a, some b, some c2, some d =>
              (parseStringBody rest3).map
                (fun pr => (Char.ofNat (4096 * a + 256 * b + 16 * c2 + d) :: pr.1, pr.2))
            | _, _, _, _ => none
          | _ => none
        else none
    else if c.toNat < 32 then none
    else (parseStringBody rest).map (fun pr => (c :: pr.1, pr.2))

/-- Split the longest run of digits off the front. -/
def splitDigits (s : Str) : Str × Str := (s.takeWhile isDigit, s.dropWhile isDigit)

/-- JSON integer part: `0` or a nonzero digit followed by digits. -/
def parseIntPart : Str → Option (Str × Str)
  | [] => none
  | c :: rest =>
    if c == '0' then some (['0'], rest)
    else if isDigit c then
      some (c :: (splitDigits rest).1, (splitDigits rest).2)
    else none

/-- Optional JSON fraction part (`none` means a malformed token). -/
def parseFrac (s : Str) : Option (Str × Str) :=
  match s with
  | '.' :: rest =>
    if (splitDigits rest).1 = [] then none
    else some ('.' :: (splitDigits rest).1, (splitDigits rest).2)
  | _ => some ([], s)

/-- Optional JSON exponent part (`none` means a malformed token). -/
def parseExp (s : Str) : Option (Str × Str) :=
  match s with
  | c :: c2 :: rest =>
    if c == 'e' || c == 'E' then
      if c2 == '+' || c2 == '-' then
        if (splitDigits rest).1 = [] then none
        else some (c :: c2 :: (splitDigits rest).1, (splitDigits rest).2)
      else
        if (splitDigits (c2 :: rest)).1 = [] then none
        else some (c :: (splitDigits (c2 :: rest)).1, (splitDigits (c2 :: rest)).2)
    else some ([], c :: c2 :: rest)
  | [c] =>
    if c == 'e' || c == 'E' then none else some ([], [c])
  | [] => some ([], [])

/-- JSON number token (sign, integer, fraction, exponent). -/
def parseNumber (s : Str) : Option (Str × Str) :=
  let sgn : Str × Str :=
    match s with
    | c :: r => if c == '-' then ([c], r) else ([], s)
    | [] => ([], [])
  match parseIntPart sgn.2 with
  | none => none
  | some (ip, s2) =>
    match parseFrac s2 with
    | none => none
    | some (fp, s3) =>
      match parseExp s3 with
      | none => none
      | some (ep, s4) => some (sgn.1 ++ ip ++ fp ++ ep, s4)

/-- The recursive-descent core of `JSON.parse`.  `mode 0` parses one value;
`mode 1` parses the items of an array after its `[` (returning `.arr`);
`mode 2` parses the members of an object after its `{` (returning `.obj`).
Fuel decreases at every recursive call; `jsonParse` supplies more fuel than
positions, so exhaustion is unreachable there. -/
def parseF : Nat → Nat → Str → Option (JVal × Str)
  | 0, _, _ => none
  | Nat.succ n, mode, s0 =>
    if mode = 0 then
      match skipWs s0 with
      | [] => none
      | c :: rest =>
        if c == 'n' then
          match rest with
          | 'u' :: 'l' :: 'l' :: r => some (.null, r)
          | _ => none
        else if c == 't' then
          match rest with
          | 'r' :: 'u' :: 'e' :: r => some (.bool true, r)
          | _ => none
        else if c == 'f' then
          match rest with
          | 'a' :: 'l' :: 's' :: 'e' :: r => some (.bool false, r)
          | _ => none
        else if c == '"' then
          (parseStringBody rest).map (fun pr => (.str pr.1, pr.2))
        else if c == '[' then
          match skipWs rest with
          | ']' :: r => some (.arr [], r)
          | s2 => parseF n 1 s2
        else if c == '{' then
          match skipWs rest with
          | '}' :: r => some (.obj [], r)
          | s2 => parseF n 2 s2
        else if c == '-' || isDigit c then
          (parseNumber (c :: rest)).map (fun pr => (.num pr.1, pr.2))
        else none
    else if mode = 1 then
      match parseF n 0 s0 with
      | none => none
      | some (v, r) =>
        match skipWs r with
        | ',' :: r2 =>
          match parseF n 1 r2 with
          | some (JVal.arr xs, r3) => some (.arr (v :: xs), r3)
          | _ => none
        | ']' :: r2 => some (.arr [v], r2)
        | _ => none
    else
      match skipWs s0 with
      | c :: rest =>
        if c == '"' then
          match parseStringBody rest with
          | none => none
          | some (k, r) =>
            match skipWs r with
            | ':' :: r2 =>
              match parseF n 0 r2 with
              | none => none
              | some (v, r3) =>
                match skipWs r3 with
                | ',' :: r4 =>
                  match parseF n 2 r4 with
                  | some (JVal.obj kvs, r5) => some (.obj ((k, v) :: kvs), r5)
                  | _ => none
                | '}' :: r4 => some (.obj [(k, v)], r4)
                | _ => none
            | _ => none
        else none
      | [] => none

/-- Embedding of `JSON.parse` as a partial operation: `some v` when the
text is valid JSON and `none` when `JSON.parse` would throw. -/
def jsonParse (s : Str) : Option JVal :=
  match parseF (s.length + 1) 0 s with
  | some (v, r) => if skipWs r = [] then some v else none
  | none => none

/-- Object member lookup (first occurrence), for stating claims about
`extractedData`. -/
def jGet (j : JVal) (k : Str) : Option JVal :=
  match j with
  | .obj kvs => (kvs.find? (fun kv => kv.1 == k)).map (fun kv => kv.2)
  | _ => none

/-- The object `processDocument` resolves with: the success shape
(`success: true`, metadata, `extractedData`) or the parse-failure shape
(`success: false`, metadata, error tag, `rawResponse`).  `processedAt`
(`new Date().toISOString()`) is an explicit parameter of the embedding. -/
inductive ProcResult : Type where
  | ok (fileName fileType processedAt : Str) (extractedData : JVal) : ProcResult
  | softFail (fileName fileType processedAt : Str) (error rawResponse : Str) : ProcResult

/-- The `success` field of the result object. -/
def ProcResult.success : ProcResult → Bool
  | .ok _ _ _ _ => true
  | .softFail _ _ _ _ _ => false

/-- The `fileName` field of the result object. -/
def ProcResult.fileName : ProcResult → Str
  | .ok fn _ _ _ => fn
  | .softFail fn _ _ _ _ => fn

/-- The `fileType` field of the result object. -/
def ProcResult.fileType : ProcResult → Str
  | .ok _ ft _ _ => ft
  | .softFail _ ft _ _ _ => ft

/-- The `processedAt` field of the result object. -/
def ProcResult.processedAt : ProcResult → Str
  | .ok _ _ pa _ => pa
  | .softFail _ _ pa _ _ => pa

/-- The `extractedData` field (absent on the failure shape). -/
def ProcResult.extracted : ProcResult → Option JVal
  | .ok _ _ _ j => some j
  | .softFail _ _ _ _ _ => none

/-- The `rawResponse` field (absent on the success shape). -/
def ProcResult.raw : ProcResult → Option Str
  | .ok _ _ _ _ => none
  | .softFail _ _ _ _ r => some r

/-- The error tag of the parse-failure shape. -/
def parseFailTag : Str := "Failed to parse document information".toList

/-- The response-normalization step of `processDocument` (lines 188–218):
clean the raw text, `JSON.parse` it, and build the success object on
success or the soft-failure object (original raw text attached) on parse
failure.  It never throws. -/
def normalizeResponse (text filePath now : Str) : ProcResult :=
  match jsonParse (cleanText text) with
  | some j => ProcResult.ok (basename filePath) (extLower filePath) now j
  | none => ProcResult.softFail (basename filePath) (extLower filePath) now parseFailTag text

/-- The user-facing message for malformed/corrupt input. -/
def msgInvalidFile : Str :=
  ("Invalid file format or corrupted file. Please ensure the file is valid " ++
   "and in a supported format (JPEG, PNG, GIF, BMP, WebP, PDF).").toList

/-- The user-facing message for an exhausted quota. -/
def msgQuota : Str := "API quota exceeded. Please try again later.".toList

/-- The user-facing message for bad credentials. -/
def msgApiKey : Str := "API key is invalid or unauthorized.".toList

/-- The generic failure wrapper. -/
def genericMsg (e : Str) : Str := "Failed to process document: ".toList ++ e

/-- The `catch` block of `processDocument` (lines 219–234): re-raise a
message chosen by sniffing the caught error's message, branches in source
order; validation messages containing `'Unsupported file format'` are
re-raised unchanged. -/
def classifyError (e : Str) : Str :=
  if strHas ("Bad Request".toList) e || strHas ("not valid".toList) e then msgInvalidFile
  else if strHas ("quota".toList) e then msgQuota
  else if strHas ("unauthorized".toList) e || strHas ("API key".toList) e then msgApiKey
  else if strHas ("Unsupported file format".toList) e then e
  else genericMsg e

/-- Outcome of one `processDocument` call: whether
`model.generateContent` was reached, and the promise's resolution
(`.ok`) or rejection (`.error`, message already classified). -/
structure ProcOutput : Type where
  called : Bool
  result : Except Str ProcResult

/-- Embedding of `processDocument`.  `gen` is the outcome of the external
`model.generateContent(...)` / `result.response.text()` step: `.error m`
for any rejection along it (including the `'No response received from
Gemini API'` guard), `.ok text` for the raw response text.  Control flow
follows the source: build the file part (validation, MIME), pick the
prompt by file kind (PDF / image / otherwise throw), call the model, then
normalize; every throw is routed through the `catch` classifier. -/
def processDocument (filePath : Str) (fileSize : Nat) (gen : Except Str Str)
    (now : Str) : ProcOutput :=
  match fileToGenerativePart filePath fileSize with
  | .error e => { called := false, result := .error (classifyError e) }
  | .ok _mime =>
    if isPDFFile filePath || isImageFile filePath then
      match gen with
      | .error e => { called := true, result := .error (classifyError e) }
      | .ok text => { called := true, result := .ok (normalizeResponse text filePath now) }
    else
      { called := false,
        result := .error (classifyError ("Unsupported file type for processing".toList)) }

/-- The multer `fileFilter` allow-list of declared MIME types. -/
def allowedMimes : List Str :=
  ["image/jpeg".toList, "image/png".toList, "application/pdf".toList]

/-- The multer `limits.fileSize` (5 MB). -/
def MULTER_LIMIT : Nat := 5 * 1024 * 1024

/-- Observable outcome of one `POST /api/upload` request. -/
structure EndpointOut : Type where
  status : Nat
  errorMsg : Option Str
  message : Option Str
  result : Option ProcResult
  fileStored : Bool
  fileDeleted : Bool

/-- Embedding of the `/api/upload` route including the multer stage and the
error middleware.  `file` is the multipart file part (path on disk, byte
size, declared MIME type), or `none` when the request has no file.
Control flow follows the source:
* no file part → handler's `!req.file` branch, `400`;
* `fileFilter` rejects the declared MIME type with a plain `Error`, which
  the error middleware (not a `MulterError`) turns into
  `500 'Internal server error'`; the file is not stored;
* the 5 MB limit produces a `MulterError` `LIMIT_FILE_SIZE` → `400`;
* otherwise the file is stored and the handler runs: a rejected
  `processDocument` jumps to `catch` (skipping the `unlink`) → `500` with
  the error message; a resolved one is followed by the `unlink` (whose
  own failure, `unlinkFails`, is swallowed) and a `200` merging the fixed
  confirmation message with the result object. -/
def uploadEndpoint (file : Option (Str × Nat × Str)) (gen : Except Str Str)
    (now : Str) (unlinkFails : Bool) : EndpointOut :=
  match file with
  | none =>
    { status := 400, errorMsg := some ("No file uploaded".toList),
      message := none, result := none, fileStored := false, fileDeleted := false }
  | some (fpath, fsize, fmime) =>
    if allowedMimes.contains fmime then
      if fsize > MULTER_LIMIT then
        { status := 400,
          errorMsg := some ("File size too large. Maximum size is 5MB.".toList),
          message := none, result := none, fileStored := false, fileDeleted := false }
      else
        match (processDocument fpath fsize gen now).result with
        | .error e =>
          { status := 500, errorMsg := some e, message := none, result := none,
            fileStored := true, fileDeleted := false }
        | .ok r =>
          { status := 200, errorMsg := none,
            message := some ("Document processed successfully".toList),
            result := some r, fileStored := true, fileDeleted := !unlinkFails }
    else
      { status := 500, errorMsg := some ("Internal server error".toList),
        message := none, result := none, fileStored := false, fileDeleted := false }

/-- Helper: is an `Except` an error? -/
def isErr : Except Str ProcResult → Bool
  | .error _ => true
  | .ok _ => false

theorem strStarts_of_append (x y s : Str) (h : strStarts (x ++ y) s = true) :
    strStarts x s = true := by
  induction x generalizing s with
  | nil => rfl
  | cons a as ih =>
    cases s with
    | nil => simp [strStarts] at h
    | cons c cs =>
      simp only [List.cons_append, strStarts, Bool.and_eq_true] at h ⊢
      exact ⟨h.1, ih cs h.2⟩

theorem strStarts_append_both (x p s : Str) :
    strStarts (x ++ p) (x ++ s) = strStarts p s := by
  induction x with
  | nil => rfl
  | cons a as ih => simp [strStarts, ih]

theorem strStarts_self_append (x b : Str) : strStarts x (x ++ b) = true := by
  induction x with
  | nil => rfl
  | cons c cs ih => simp [strStarts, ih]

theorem sub_of_pref (p s : Str) (h : p <+: s) : p <:+: s := by
  obtain ⟨t, ht⟩ := h
  exact ⟨[], t, by simp [ht]⟩

theorem sub_of_suf (p s : Str) (h : p <:+ s) : p <:+: s := by
  obtain ⟨t, ht⟩ := h
  exact ⟨t, [], by simp [ht]⟩

theorem sub_trans (a b c : Str) (h1 : a <:+: b) (h2 : b <:+: c) : a <:+: c :=
  h1.trans h2

theorem strHas_of_starts (p s : Str) (h : strStarts p s = true) : strHas p s = true :=
  (strHas_iff p s).mpr (sub_of_pref p s ((strStarts_iff p s).mp h))

theorem strHas_cons_false (p : Str) (c : Char) (cs : Str)
    (h : strHas p (c :: cs) = false) :
    strStarts p (c :: cs) = false ∧ strHas p cs = false := by
  simpa [strHas] using h

theorem fj8_shape : fj8 = fence3 ++ "json\n".toList := rfl

theorem fj7_shape : fj7 = fence3 ++ "json".toList := rfl

theorem nf4_shape : nf4 = '\n' :: fence3 := rfl

theorem fence3_shape : fence3 = tick :: "``".toList := rfl

theorem cleanReplaceF_no_fence (n : Nat) (t : Str) (h : strHas fence3 t = false) :
    cleanReplaceF n t = t := by
  induction n generalizing t with
  | zero => rfl
  | succ n ih =>
    cases t with
    | nil => rfl
    | cons c cs =>
      obtain ⟨hs, htail⟩ := strHas_cons_false fence3 c cs h
      have h3 : strStarts fence3 (c :: cs) = false := hs
      have h8 : strStarts fj8 (c :: cs) = false := by
        cases hx : strStarts fj8 (c :: cs) with
        | false => rfl
        | true =>
          rw [fj8_shape] at hx
          rw [strStarts_of_append _ _ _ hx] at h3
          exact absurd h3 (by simp)
      have h7 : strStarts fj7 (c :: cs) = false := by
        cases hx : strStarts fj7 (c :: cs) with
        | false => rfl
        | true =>
          rw [fj7_shape] at hx
          rw [strStarts_of_append _ _ _ hx] at h3
          exact absurd h3 (by simp)
      have h4 : strStarts nf4 (c :: cs) = false := by
        cases hx : strStarts nf4 (c :: cs) with
        | false => rfl
        | true =>
          rw [nf4_shape] at hx
          simp only [strStarts, Bool.and_eq_true] at hx
          rw [strHas_of_starts fence3 cs hx.2] at htail
          exact absurd htail (by simp)
      simp only [cleanReplaceF, h8, h7, h4, h3, if_false, Bool.false_eq_true]
      exact congrArg (c :: ·) (ih cs htail)

theorem strStarts_tick_head (p s : Str) (c : Char) (hp : p = fence3 ++ s)
    (hc : c ≠ tick) (u : Str) : strStarts p (c :: u) = false := by
  subst hp
  have hx : (tick == c) = false := by
    cases hx : (tick == c) with
    | false => rfl
    | true => exact absurd (beq_iff_eq.mp hx).symm hc
  rw [fence3_shape]
  simp [strStarts, hx]

theorem cleanReplaceF_scan (a t : Str) (m : Nat)
    (ha : ∀ c ∈ a, c ≠ tick) (hl : a.getLast? ≠ some '\n') :
    cleanReplaceF (a.length + m) (a ++ t) = a ++ cleanReplaceF m t := by
  induction a with
  | nil => simp
  | cons c a' ih =>
    have hc : c ≠ tick := ha c (List.mem_cons_self c a')
    have h8 : strStarts fj8 (c :: (a' ++ t)) = false :=
      strStarts_tick_head fj8 ("json\n".toList) c fj8_shape hc _
    have h7 : strStarts fj7 (c :: (a' ++ t)) = false :=
      strStarts_tick_head fj7 ("json".toList) c fj7_shape hc _
    have h3 : strStarts fence3 (c :: (a' ++ t)) = false := by
      have := strStarts_tick_head fence3 [] c (by simp [fence3_shape]) hc (a' ++ t)
      simpa using this
    have h4 : strStarts nf4 (c :: (a' ++ t)) = false := by
      rw [nf4_shape]
      simp only [strStarts]
      cases hnl : ('\n' == c) with
      | false => rfl
      | true =>
        have hcn : c = '\n' := (beq_iff_eq.mp hnl).symm
        cases ha' : a' with
        | nil =>
          exfalso
          apply hl
          simp [hcn, ha']
        | cons d a'' =>
          have hd : d ≠ tick := ha d (by simp [ha'])
          have hfd : strStarts fence3 (d :: (a'' ++ t)) = false :=
            strStarts_tick_head fence3 [] d (by simp) hd (a'' ++ t)
          simp only [List.cons_append, hfd, Bool.and_false]
    have hstep : (c :: a').length + m = Nat.succ (a'.length + m) := by
      simp [List.length_cons]
      omega
    rw [hstep]
    simp only [List.cons_append, cleanReplaceF, h8, h7, h4, h3, if_false,
      Bool.false_eq_true]
    have hl' : a'.getLast? ≠ some '\n' := by
      cases a' with
      | nil => simp
      | cons d a'' => rwa [List.getLast?_cons_cons] at hl
    exact congrArg (c :: ·) (ih (fun x hx => ha x (List.mem_cons_of_mem c hx)) hl')

theorem strStarts_fence3_nil : strStarts fence3 [] = false := rfl

theorem cleanReplaceF_step_fj8 (n : Nat) (t : Str) (h8 : strStarts fj8 t = true) :
    cleanReplaceF (Nat.succ n) t = cleanReplaceF n (t.drop 8) := by
  cases t with
  | nil => simp [fj8_shape, fence3_shape, strStarts] at h8
  | cons c cs => simp [cleanReplaceF, h8]

theorem cleanReplaceF_step_fj7 (n : Nat) (t : Str)
    (h8 : strStarts fj8 t = false) (h7 : strStarts fj7 t = true) :
    cleanReplaceF (Nat.succ n) t = cleanReplaceF n (t.drop 7) := by
  cases t with
  | nil => simp [fj7_shape, fence3_shape, strStarts] at h7
  | cons c cs => simp [cleanReplaceF, h8, h7]

theorem cleanReplaceF_step_nf4 (n : Nat) (t : Str)
    (h8 : strStarts fj8 t = false) (h7 : strStarts fj7 t = false)
    (h4 : strStarts nf4 t = true) :
    cleanReplaceF (Nat.succ n) t = cleanReplaceF n (t.drop 4) := by
  cases t with
  | nil => simp [nf4_shape, strStarts] at h4
  | cons c cs => simp [cleanReplaceF, h8, h7, h4]

theorem cleanReplaceF_step_fence3 (n : Nat) (t : Str)
    (h8 : strStarts fj8 t = false) (h7 : strStarts fj7 t = false)
    (h4 : strStarts nf4 t = false) (h3 : strStarts fence3 t = true) :
    cleanReplaceF (Nat.succ n) t = cleanReplaceF n (t.drop 3) := by
  cases t with
  | nil => simp [fence3_shape, strStarts] at h3
  | cons c cs => simp [cleanReplaceF, h8, h7, h4, h3]

theorem cleanReplaceF_fj8_boundary (m : Nat) (b : Str)
    (hb : strHas fence3 b = false) :
    cleanReplaceF (Nat.succ m) (fj8 ++ b) = b := by
  rw [cleanReplaceF_step_fj8 m (fj8 ++ b)
      (strStarts_self_append _ b)]
  have hdrop : (fj8 ++ b).drop 8 = b := List.drop_left fj8 b
  rw [hdrop]
  exact cleanReplaceF_no_fence m b hb

theorem strStarts_nl_head_false (b : Str) (hh : b.head? ≠ some '\n') :
    strStarts ("\n".toList) b = false := by
  cases b with
  | nil => rfl
  | cons c cs =>
    have hc : c ≠ '\n' := by
      intro h
      exact hh (by simp [h])
    simp only [strStarts]
    cases hx : ('\n' == c) with
    | false => simp
    | true => exact absurd (beq_iff_eq.mp hx).symm hc

theorem cleanReplaceF_fj7_boundary (m : Nat) (b : Str)
    (hb : strHas fence3 b = false) (hh : b.head? ≠ some '\n') :
    cleanReplaceF (Nat.succ m) (fj7 ++ b) = b := by
  have h8 : strStarts fj8 (fj7 ++ b) = false := by
    have hsplit : fj8 = fj7 ++ "\n".toList := rfl
    rw [hsplit, strStarts_append_both]
    exact strStarts_nl_head_false b hh
  rw [cleanReplaceF_step_fj7 m (fj7 ++ b) h8
      (strStarts_self_append _ b)]
  have hdrop : (fj7 ++ b).drop 7 = b := List.drop_left fj7 b
  rw [hdrop]
  exact cleanReplaceF_no_fence m b hb

theorem cleanReplaceF_nf4_boundary (m : Nat) (b : Str)
    (hb : strHas fence3 b = false) :
    cleanReplaceF (Nat.succ m) (nf4 ++ b) = b := by
  have hcons : nf4 ++ b = '\n' :: (fence3 ++ b) := rfl
  have hnt : ('\n' : Char) ≠ tick := by decide
  have h8 : strStarts fj8 (nf4 ++ b) = false := by
    rw [hcons]
    exact strStarts_tick_head fj8 ("json\n".toList) '\n' fj8_shape hnt _
  have h7 : strStarts fj7 (nf4 ++ b) = false := by
    rw [hcons]
    exact strStarts_tick_head fj7 ("json".toList) '\n' fj7_shape hnt _
  rw [cleanReplaceF_step_nf4 m (nf4 ++ b) h8 h7
      (strStarts_self_append _ b)]
  have hdrop : (nf4 ++ b).drop 4 = b := List.drop_left nf4 b
  rw [hdrop]
  exact cleanReplaceF_no_fence m b hb

theorem cleanReplaceF_fence3_boundary (m : Nat) (b : Str)
    (hb : strHas fence3 b = false) (hj : strStarts ("json".toList) b = false) :
    cleanReplaceF (Nat.succ m) (fence3 ++ b) = b := by
  have h8 : strStarts fj8 (fence3 ++ b) = false := by
    rw [fj8_shape, strStarts_append_both]
    cases hx : strStarts ("json\n".toList) b with
    | false => rfl
    | true =>
      have hsplit : ("json\n".toList : Str) = "json".toList ++ "\n".toList := rfl
      rw [hsplit] at hx
      rw [strStarts_of_append _ _ _ hx] at hj
      exact absurd hj (by simp)
  have h7 : strStarts fj7 (fence3 ++ b) = false := by
    rw [fj7_shape, strStarts_append_both]
    exact hj
  have h4 : strStarts nf4 (fence3 ++ b) = false := by
    have hcons : fence3 ++ b = tick :: ("``".toList ++ b) := rfl
    rw [nf4_shape, hcons]
    simp only [strStarts]
    rw [show ('\n' == tick) = false from by decide]
    simp
  rw [cleanReplaceF_step_fence3 m (fence3 ++ b) h8 h7 h4
      (strStarts_self_append _ b)]
  have hdrop : (fence3 ++ b).drop 3 = b := List.drop_left fence3 b
  rw [hdrop]
  exact cleanReplaceF_no_fence m b hb

theorem trimLeft_head_not_ws (l : Str) (c : Char) (cs : Str)
    (h : trimLeft l = c :: cs) : jsWsChar c = false := by
  induction l with
  | nil => simp [trimLeft] at h
  | cons x xs ih =>
    by_cases hx : jsWsChar x = true
    · rw [trimLeft, List.dropWhile_cons, if_pos hx] at h
      exact ih h
    · rw [trimLeft, List.dropWhile_cons, if_neg hx] at h
      cases h
      simpa using hx

theorem trimRight_prefix_of_self (l : Str) : trimRight l <+: l := by
  induction l with
  | nil => simp [trimRight]
  | cons c cs ih =>
    cases h : trimRight cs with
    | nil =>
      by_cases hc : jsWsChar c = true
      · simp [trimRight, h, hc]
      · simp [trimRight, h, hc]
    | cons d ds =>
      rw [trimRight, h]
      rw [h] at ih
      exact (List.cons_prefix_cons).mpr ⟨rfl, ih⟩

theorem trimRight_idem (l : Str) : trimRight (trimRight l) = trimRight l := by
  induction l with
  | nil => rfl
  | cons c cs ih =>
    cases h : trimRight cs with
    | nil =>
      by_cases hc : jsWsChar c = true
      · simp [trimRight, h, hc]
      · simp [trimRight, h, hc]
    | cons d ds =>
      rw [h] at ih
      rw [trimRight, h, trimRight, ih]

theorem jsTrim_idem (s : Str) : jsTrim (jsTrim s) = jsTrim s := by
  unfold jsTrim
  cases hy : trimLeft s with
  | nil => simp [trimRight, trimLeft]
  | cons c cs =>
    have hc : jsWsChar c = false := trimLeft_head_not_ws s c cs hy
    cases hr : trimRight (c :: cs) with
    | nil => simp [trimLeft, trimRight]
    | cons d ds =>
      have hd : d = c := by
        cases h2 : trimRight cs with
        | nil =>
          rw [trimRight, h2, if_neg (by simp [hc])] at hr
          exact (List.cons.injEq .. ▸ hr).1.symm
        | cons e es =>
          rw [trimRight, h2] at hr
          exact (List.cons.injEq .. ▸ hr).1.symm
      have htl : trimLeft (d :: ds) = d :: ds := by
        rw [trimLeft, List.dropWhile_cons, if_neg (by simp [hd, hc])]
      rw [htl]
      have := trimRight_idem (c :: cs)
      rw [hr] at this
      exact this

theorem jsTrim_infix_self (s : Str) : jsTrim s <:+: s := by
  have h1 : trimRight (trimLeft s) <+: trimLeft s := trimRight_prefix_of_self (trimLeft s)
  have h2 : trimLeft s <:+ s := List.dropWhile_suffix jsWsChar
  exact sub_trans _ _ _ (sub_of_pref _ _ h1) (sub_of_suf _ _ h2)

theorem strHas_false_of_sub (p t u : Str) (h : strHas p t = false)
    (hu : u <:+: t) : strHas p u = false := by
  cases hq : strHas p u with
  | false => rfl
  | true =>
    have hpt : p <:+: t := ((strHas_iff p u).mp hq).trans hu
    rw [(strHas_iff p t).mpr hpt] at h
    exact absurd h (by simp)

theorem ofNat_lower_toNat : ∀ n, n < 26 → (Char.ofNat (n + 97)).toNat = n + 97 := by
  decide

theorem lowerChar_toNat_of_upper (c : Char) (h : 65 ≤ c.toNat ∧ c.toNat ≤ 90) :
    (lowerChar c).toNat = c.toNat + 32 := by
  rw [lowerChar, if_pos h]
  have h26 : c.toNat - 65 < 26 := by omega
  have := ofNat_lower_toNat (c.toNat - 65) h26
  have harg : c.toNat - 65 + 97 = c.toNat + 32 := by omega
  rwa [harg] at this

theorem lowerChar_fixes (d : Char) (hd : d.toNat < 65)
    (c : Char) : lowerChar c = d ↔ c = d := by
  constructor
  · intro h
    rw [lowerChar] at h
    by_cases hc : 65 ≤ c.toNat ∧ c.toNat ≤ 90
    · exfalso
      rw [if_pos hc] at h
      have ht := lowerChar_toNat_of_upper c hc
      rw [lowerChar, if_pos hc] at ht
      rw [h] at ht
      omega
    · rwa [if_neg hc] at h
  · intro h
    subst h
    rw [lowerChar, if_neg (by omega)]

theorem lowerChar_idem (c : Char) : lowerChar (lowerChar c) = lowerChar c := by
  by_cases hc : 65 ≤ c.toNat ∧ c.toNat ≤ 90
  · have ht := lowerChar_toNat_of_upper c hc
    rw [lowerChar]
    rw [if_neg (by omega)]
  · have h0 : lowerChar c = c := by rw [lowerChar, if_neg hc]
    rw [h0]
    exact h0

theorem lowerChar_bne_dot (c : Char) : (lowerChar c != '.') = (c != '.') := by
  by_cases hc : c = '.'
  · subst hc
    rw [show lowerChar '.' = '.' from by decide]
  · have hne : lowerChar c ≠ '.' := fun h => hc ((lowerChar_fixes '.' (by decide) c).mp h)
    simp [bne, hne, hc]

theorem lowerChar_bne_slash (c : Char) : (lowerChar c != '/') = (c != '/') := by
  by_cases hc : c = '/'
  · subst hc
    rw [show lowerChar '/' = '/' from by decide]
  · have hne : lowerChar c ≠ '/' := fun h => hc ((lowerChar_fixes '/' (by decide) c).mp h)
    simp [bne, hne, hc]

theorem basename_map_lower (p : Str) :
    basename (p.map lowerChar) = (basename p).map lowerChar := by
  unfold basename
  have hpred : ((fun c => c != '/') ∘ lowerChar) = (fun c : Char => c != '/') := by
    funext c
    exact lowerChar_bne_slash c
  rw [← List.map_reverse, List.takeWhile_map, hpred, ← List.map_reverse]

theorem extname_map_lower (p : Str) :
    extname (p.map lowerChar) = (extname p).map lowerChar := by
  have hpred : ((fun c => c != '.') ∘ lowerChar) = (fun c : Char => c != '.') := by
    funext c
    exact lowerChar_bne_dot c
  unfold extname
  dsimp only
  rw [basename_map_lower, ← List.map_reverse, List.takeWhile_map,
    List.dropWhile_map, hpred]
  cases hdw : (basename p).reverse.dropWhile (fun c => c != '.') with
  | nil => simp
  | cons x before =>
    simp only [List.map_cons]
    by_cases hb : before.isEmpty = true
    · have hb2 : (before.map lowerChar).isEmpty = true := by
        rw [List.isEmpty_iff] at hb ⊢
        simp [hb]
      rw [hb, hb2]
      simp
    · have hb3 : before.isEmpty = false := by
        cases h : before.isEmpty
        · rfl
        · exact absurd h hb
      have hb2 : (before.map lowerChar).isEmpty = false := by
        cases before with
        | nil => simp at hb3
        | cons y ys => rfl
      rw [hb2, hb3]
      simp only [if_false, Bool.false_eq_true]
      rw [List.map_cons, ← List.map_reverse]
      rw [show lowerChar '.' = '.' from by decide]

theorem extLower_map_lower (p : Str) :
    extLower (p.map lowerChar) = extLower p := by
  unfold extLower
  rw [extname_map_lower]
  rw [List.map_map]
  congr 1
  funext c
  exact lowerChar_idem c

/-- C1: the claim says the transient file is deleted on every exit path of
the upload handler.  The code violates it: `fs.promises.unlink` is placed
after `await processDocument(...)` inside the `try`, so when the pipeline
rejects (here: the external call fails on a valid 100-byte JPEG), control
jumps to `catch`, the response is a 500, and the stored file is never
deleted. -/
theorem c1_error_path_leaves_file :
    (uploadEndpoint (some ("uploads/1-2.jpg".toList, 100, "image/jpeg".toList))
        (.error ("network failure".toList)) [] false).fileStored = true ∧
    (uploadEndpoint (some ("uploads/1-2.jpg".toList, 100, "image/jpeg".toList))
        (.error ("network failure".toList)) [] false).fileDeleted = false ∧
    (uploadEndpoint (some ("uploads/1-2.jpg".toList, 100, "image/jpeg".toList))
        (.error ("network failure".toList)) [] false).status = 500 :=
  ⟨rfl, rfl, rfl⟩

/-- C3: validation succeeds iff the size is positive, at most 20 MiB and the
lowercased extension is on the allow-list; exactly 20 MiB passes, one byte
over fails, and an empty file fails for every path. -/
theorem c3_validateFile_characterization :
    (∀ p size, validateFile p size = .ok () ↔
      (0 < size ∧ size ≤ MAX_FILE_SIZE ∧ extLower p ∈ supportedExts)) ∧
    validateFile ("scan.jpg".toList) 20971520 = .ok () ∧
    validateFile ("scan.jpg".toList) 20971521 = .error (tooLargeMsg 20971521) ∧
    (∀ p, validateFile p 0 ≠ .ok ()) := by
  refine ⟨?_, rfl, rfl, ?_⟩
  · intro p size
    unfold validateFile
    split_ifs with h1 h2
    · constructor
      · intro h
        exact h.elim
      · rintro ⟨-, hle, -⟩
        omega
    · constructor
      · intro h
        exact h.elim
      · rintro ⟨hpos, -, -⟩
        omega
    · cases hl : lookupFormat (extLower p) with
      | none =>
        constructor
        · intro h
          exact Except.noConfusion h
        · rintro ⟨-, -, hmem⟩
          have hsome := (lookupFormat_isSome_iff (extLower p)).mpr hmem
          rw [hl] at hsome
          exact absurd hsome (by simp)
      | some m =>
        constructor
        · intro _
          refine ⟨by omega, by omega, ?_⟩
          apply (lookupFormat_isSome_iff (extLower p)).mp
          rw [hl]
          rfl
        · intro _
          rfl
  · intro p h
    unfold validateFile at h
    rw [if_neg (by unfold MAX_FILE_SIZE; omega), if_pos rfl] at h
    exact Except.noConfusion h

/-- C4: on raw model text that does not parse as JSON the normalizer throws
nothing and returns the soft-failure object with `success:false`, the fixed
error tag, `rawResponse` equal to the original text, and (second conjunct)
the same metadata fields every result carries. -/
theorem c4_nonjson_soft_failure :
    (∀ p now,
      normalizeResponse ("I cannot process this image".toList) p now =
        ProcResult.softFail (basename p) (extLower p) now parseFailTag
          ("I cannot process this image".toList)) ∧
    (∀ p now,
      (normalizeResponse ("I cannot process this image".toList) p now).success = false) ∧
    (∀ text p now,
      (normalizeResponse text p now).fileName = basename p ∧
      (normalizeResponse text p now).fileType = extLower p ∧
      (normalizeResponse text p now).processedAt = now) := by
  refine ⟨fun p now => rfl, fun p now => rfl, fun text p now => ?_⟩
  unfold normalizeResponse
  cases jsonParse (cleanText text) with
  | none => exact ⟨rfl, rfl, rfl⟩
  | some j => exact ⟨rfl, rfl, rfl⟩

/-- C5: on the fenced JSON payload the normalizer strips the fences, parses
the object and returns the success shape whose `extractedData.documentType`
is the string `"passport"`. -/
theorem c5_fenced_json_success :
    (∀ p now,
      normalizeResponse ("```json\n\x7b\"documentType\":\"passport\"\x7d\n```".toList) p now =
        ProcResult.ok (basename p) (extLower p) now
          (JVal.obj [("documentType".toList, JVal.str ("passport".toList))])) ∧
    (∀ p now,
      (normalizeResponse ("```json\n\x7b\"documentType\":\"passport\"\x7d\n```".toList)
          p now).success = true) ∧
    (∀ p now,
      ((normalizeResponse ("```json\n\x7b\"documentType\":\"passport\"\x7d\n```".toList)
          p now).extracted.bind (fun j => jGet j ("documentType".toList))) =
        some (JVal.str ("passport".toList))) :=
  ⟨fun _ _ => rfl, fun _ _ => rfl, fun _ _ => rfl⟩

theorem validateFile_ok_mem (p : Str) (size : Nat)
    (h : validateFile p size = .ok ()) : extLower p ∈ supportedExts := by
  unfold validateFile at h
  split_ifs at h
  cases hl : lookupFormat (extLower p) with
  | none =>
    rw [hl] at h
    exact absurd h (by simp)
  | some m =>
    apply (lookupFormat_isSome_iff _).mp
    rw [hl]
    rfl

theorem supported_kind (p : Str) (hmem : extLower p ∈ supportedExts) :
    (isPDFFile p || isImageFile p) = true := by
  unfold isPDFFile isImageFile
  simp only [supportedExts, List.mem_cons, List.not_mem_nil, or_false] at hmem
  rcases hmem with h | h | h | h | h | h | h <;> rw [h] <;> decide

theorem processDocument_validation_error (p : Str) (size : Nat)
    (gen : Except Str Str) (now : Str) (e : Str)
    (hv : validateFile p size = .error e) :
    processDocument p size gen now =
      { called := false, result := .error (classifyError e) } := by
  unfold processDocument fileToGenerativePart
  rw [hv]

theorem processDocument_gen_reached (p : Str) (size : Nat)
    (gen : Except Str Str) (now : Str)
    (hv : validateFile p size = .ok ()) :
    processDocument p size gen now =
      { called := true,
        result :=
          match gen with
          | .error e => .error (classifyError e)
          | .ok text => .ok (normalizeResponse text p now) } := by
  have hmem := validateFile_ok_mem p size hv
  have hksome : (lookupFormat (extLower p)).isSome = true :=
    (lookupFormat_isSome_iff _).mpr hmem
  obtain ⟨m, hm⟩ := Option.isSome_iff_exists.mp hksome
  unfold processDocument fileToGenerativePart
  rw [hv]
  unfold getMimeType
  rw [hm]
  rw [if_pos (supported_kind p hmem)]
  cases gen <;> rfl

/-- C6: when the extension is not on the allow-list the pipeline fails and
`model.generateContent` is never reached. -/
theorem c6_unsupported_ext_no_model_call (p : Str) (size : Nat)
    (gen : Except Str Str) (now : Str)
    (h : lookupFormat (extLower p) = none) :
    (processDocument p size gen now).called = false ∧
    isErr (processDocument p size gen now).result = true := by
  cases hv : validateFile p size with
  | error e =>
    rw [processDocument_validation_error p size gen now e hv]
    exact ⟨rfl, rfl⟩
  | ok u =>
    exfalso
    cases u
    have hmem := validateFile_ok_mem p size hv
    have hsome := (lookupFormat_isSome_iff (extLower p)).mpr hmem
    rw [h] at hsome
    exact absurd hsome (by simp)

/-- Witness for C6 at a concrete `.txt` upload. -/
theorem c6_unsupported_ext_no_model_call_witness :
    lookupFormat (extLower ("doc.txt".toList)) = none ∧
    (processDocument ("doc.txt".toList) 100 (.ok []) []).called = false ∧
    isErr (processDocument ("doc.txt".toList) 100 (.ok []) []).result = true :=
  ⟨rfl,
    (c6_unsupported_ext_no_model_call ("doc.txt".toList) 100 (.ok []) [] rfl).1,
    (c6_unsupported_ext_no_model_call ("doc.txt".toList) 100 (.ok []) [] rfl).2⟩

/-- C7 counterexample: the claim asserts every external error not matching
the four sniffing groups maps to the generic failure message; but an
external error whose message contains `'Unsupported file format'` is
re-thrown verbatim by the `catch` block's pass-through branch. -/
theorem c7_passthrough_counterexample :
    (processDocument ("doc.jpg".toList) 100
        (.error ("Unsupported file format".toList)) []).result =
      .error ("Unsupported file format".toList) ∧
    ("Unsupported file format".toList : Str) ≠
      genericMsg ("Unsupported file format".toList) :=
  ⟨rfl, by decide⟩

/-- C7 amended: external-call errors are re-raised through first-match
classification (`classifyError`): Bad Request / not valid, then quota, then
unauthorized / API key, then an `'Unsupported file format'` pass-through,
then the generic wrapper; the three fixed messages are pairwise distinct
and the generic wrapper never collides with them. -/
theorem c7_amended_classified_reraise (p : Str) (size : Nat) (e now : Str)
    (hv : validateFile p size = .ok ()) :
    ((processDocument p size (.error e) now).called = true ∧
     (processDocument p size (.error e) now).result = .error (classifyError e)) ∧
    (msgInvalidFile ≠ msgQuota ∧ msgInvalidFile ≠ msgApiKey ∧ msgQuota ≠ msgApiKey) ∧
    (∀ e2, genericMsg e2 ≠ msgInvalidFile ∧ genericMsg e2 ≠ msgQuota ∧
      genericMsg e2 ≠ msgApiKey) := by
  refine ⟨?_, ⟨by decide, by decide, by decide⟩, ?_⟩
  · rw [processDocument_gen_reached p size (.error e) now hv]
    exact ⟨rfl, rfl⟩
  · intro e2
    refine ⟨?_, ?_, ?_⟩ <;>
      (intro h
       have h1 : (genericMsg e2).head? = some 'F' := rfl
       rw [h] at h1
       exact absurd h1 (by decide))

/-- Witness for the amended C7 on a quota error over a valid PNG. -/
theorem c7_amended_classified_reraise_witness :
    validateFile ("id.png".toList) 50 = .ok () ∧
    (processDocument ("id.png".toList) 50
        (.error ("quota exhausted".toList)) []).result = .error msgQuota :=
  ⟨rfl, by
    have h :=
      (c7_amended_classified_reraise ("id.png".toList) 50
        ("quota exhausted".toList) [] rfl).1.2
    rw [h]
    rfl⟩

theorem uploadEndpoint_handler_error (p : Str) (size : Nat) (mime : Str)
    (gen : Except Str Str) (now : Str) (uf : Bool) (e : Str)
    (hm : allowedMimes.contains mime = true) (hs : ¬ size > MULTER_LIMIT)
    (hres : (processDocument p size gen now).result = .error e) :
    uploadEndpoint (some (p, size, mime)) gen now uf =
      { status := 500, errorMsg := some e, message := none, result := none,
        fileStored := true, fileDeleted := false } := by
  unfold uploadEndpoint
  dsimp only
  rw [if_pos hm, if_neg hs, hres]

/-- C2 counterexample: the claim says every validation failure yields a
400-class response with the specific reason; a declared MIME type outside
the allow-list instead yields `500 'Internal server error'` (the
`fileFilter` error is a plain `Error`, which the middleware does not treat
as a `MulterError`). -/
theorem c2_counterexample_mime_500 :
    (uploadEndpoint (some ("doc.txt".toList, 100, "text/plain".toList))
        (.ok []) [] false).status = 500 ∧
    ¬(400 ≤ (uploadEndpoint (some ("doc.txt".toList, 100, "text/plain".toList))
        (.ok []) [] false).status ∧
      (uploadEndpoint (some ("doc.txt".toList, 100, "text/plain".toList))
        (.ok []) [] false).status < 500) ∧
    (uploadEndpoint (some ("doc.txt".toList, 100, "text/plain".toList))
        (.ok []) [] false).errorMsg = some ("Internal server error".toList) :=
  ⟨rfl, by decide, rfl⟩

/-- C2 amended: how validation failures actually surface: a rejected
declared MIME type gives `500 'Internal server error'` (reason dropped);
the transport 5 MB limit gives `400` with its specific message; an empty
file and an unsupported extension flow through the pipeline's classifier
and give `500` with the classified validation message in the error field. -/
theorem c2_amended_validation_statuses (p : Str) (size : Nat) (mime : Str)
    (gen : Except Str Str) (now : Str) (uf : Bool) :
    (allowedMimes.contains mime = false →
      (uploadEndpoint (some (p, size, mime)) gen now uf).status = 500 ∧
      (uploadEndpoint (some (p, size, mime)) gen now uf).errorMsg =
        some ("Internal server error".toList)) ∧
    (allowedMimes.contains mime = true → MULTER_LIMIT < size →
      (uploadEndpoint (some (p, size, mime)) gen now uf).status = 400 ∧
      (uploadEndpoint (some (p, size, mime)) gen now uf).errorMsg =
        some ("File size too large. Maximum size is 5MB.".toList)) ∧
    (allowedMimes.contains mime = true → size = 0 →
      (uploadEndpoint (some (p, size, mime)) gen now uf).status = 500 ∧
      (uploadEndpoint (some (p, size, mime)) gen now uf).errorMsg =
        some (genericMsg ("File is empty".toList))) ∧
    (allowedMimes.contains mime = true → 0 < size → size ≤ MULTER_LIMIT →
      lookupFormat (extLower p) = none →
      (uploadEndpoint (some (p, size, mime)) gen now uf).status = 500 ∧
      (uploadEndpoint (some (p, size, mime)) gen now uf).errorMsg =
        some (classifyError (unsupportedFormatMsg (extLower p)))) := by
  refine ⟨?_, ?_, ?_, ?_⟩
  · intro hm
    unfold uploadEndpoint
    dsimp only
    rw [if_neg (show ¬(allowedMimes.contains mime = true) from
      fun hh => Bool.noConfusion (hm ▸ hh))]
    exact ⟨rfl, rfl⟩
  · intro hm hsz
    unfold uploadEndpoint
    dsimp only
    rw [if_pos hm, if_pos hsz]
    exact ⟨rfl, rfl⟩
  · intro hm hsz
    subst hsz
    have hv : validateFile p 0 = .error ("File is empty".toList) := by
      unfold validateFile
      rw [if_neg (by unfold MAX_FILE_SIZE; omega), if_pos rfl]
    have hres : (processDocument p 0 gen now).result =
        .error (classifyError ("File is empty".toList)) := by
      rw [processDocument_validation_error p 0 gen now _ hv]
    have hcl : classifyError ("File is empty".toList) =
        genericMsg ("File is empty".toList) := by decide
    rw [hcl] at hres
    rw [uploadEndpoint_handler_error p 0 mime gen now uf _ hm
        (by unfold MULTER_LIMIT; omega) hres]
    exact ⟨rfl, rfl⟩
  · intro hm hpos hle hl
    have hv : validateFile p size = .error (unsupportedFormatMsg (extLower p)) := by
      unfold validateFile
      rw [if_neg (by unfold MULTER_LIMIT at hle; unfold MAX_FILE_SIZE; omega),
        if_neg (by omega), hl]
    have hres : (processDocument p size gen now).result =
        .error (classifyError (unsupportedFormatMsg (extLower p))) := by
      rw [processDocument_validation_error p size gen now _ hv]
    rw [uploadEndpoint_handler_error p size mime gen now uf _ hm (by omega) hres]
    exact ⟨rfl, rfl⟩

/-- Witness for the amended C2: an empty JPEG gives a 500 with the wrapped
reason, and an oversized JPEG gives the multer 400. -/
theorem c2_amended_validation_statuses_witness :
    (uploadEndpoint (some ("a.jpg".toList, 0, "image/jpeg".toList))
        (.ok []) [] false).status = 500 ∧
    (uploadEndpoint (some ("a.jpg".toList, 0, "image/jpeg".toList))
        (.ok []) [] false).errorMsg = some (genericMsg ("File is empty".toList)) ∧
    (uploadEndpoint (some ("b.jpg".toList, 6000000, "image/jpeg".toList))
        (.ok []) [] false).status = 400 := by
  refine ⟨?_, ?_, ?_⟩
  · exact ((c2_amended_validation_statuses ("a.jpg".toList) 0 ("image/jpeg".toList)
      (.ok []) [] false).2.2.1 rfl rfl).1
  · exact ((c2_amended_validation_statuses ("a.jpg".toList) 0 ("image/jpeg".toList)
      (.ok []) [] false).2.2.1 rfl rfl).2
  · exact ((c2_amended_validation_statuses ("b.jpg".toList) 6000000 ("image/jpeg".toList)
      (.ok []) [] false).2.1 rfl (by decide)).1

/-- C8: on text that is valid JSON and carries no fence marker, the
cleaning step (global fence replacement then trim) is idempotent, so
parsing its result twice yields the same structure. -/
theorem c8_clean_idempotent_on_clean_json (t : Str) (v : JVal)
    (_hv : jsonParse t = some v) (hf : strHas fence3 t = false) :
    cleanText (cleanText t) = cleanText t ∧
    jsonParse (cleanText (cleanText t)) = jsonParse (cleanText t) := by
  have h1 : cleanReplace t = t := cleanReplaceF_no_fence _ t hf
  have hct : cleanText t = jsTrim t := by
    unfold cleanText
    rw [h1]
  have hf2 : strHas fence3 (jsTrim t) = false :=
    strHas_false_of_sub fence3 t (jsTrim t) hf (jsTrim_infix_self t)
  have h2 : cleanReplace (jsTrim t) = jsTrim t := cleanReplaceF_no_fence _ _ hf2
  have hcc : cleanText (cleanText t) = jsTrim t := by
    rw [hct]
    unfold cleanText
    rw [h2, jsTrim_idem]
  exact ⟨by rw [hcc, hct], by rw [hcc, hct]⟩

/-- Witness for C8 at a clean one-member object. -/
theorem c8_clean_idempotent_on_clean_json_witness :
    jsonParse ("\x7b\"a\":1\x7d".toList) =
      some (JVal.obj [("a".toList, JVal.num ("1".toList))]) ∧
    strHas fence3 ("\x7b\"a\":1\x7d".toList) = false ∧
    cleanText (cleanText ("\x7b\"a\":1\x7d".toList)) =
      cleanText ("\x7b\"a\":1\x7d".toList) :=
  ⟨rfl, by decide,
    (c8_clean_idempotent_on_clean_json ("\x7b\"a\":1\x7d".toList)
      (JVal.obj [("a".toList, JVal.num ("1".toList))]) rfl (by decide)).1⟩

/-- C9: fence stripping is a global substring replacement — an interior
occurrence of any regex alternative is deleted even with non-fence text on
both sides (first conjunct, side conditions exclude overlapping matches);
consequently a valid JSON text with a fence inside a string value is
altered by cleaning and re-parses to a different structure. -/
theorem c9_fence_strip_global :
    (∀ a b : Str, (∀ c ∈ a, c ≠ tick) → a.getLast? ≠ some '\n' →
      strHas fence3 b = false → strStarts ("json".toList) b = false →
      b.head? ≠ some '\n' →
      cleanReplace (a ++ fence3 ++ b) = a ++ b ∧
      cleanReplace (a ++ fj7 ++ b) = a ++ b ∧
      cleanReplace (a ++ fj8 ++ b) = a ++ b ∧
      cleanReplace (a ++ nf4 ++ b) = a ++ b) ∧
    jsonParse ("\x7b\"note\":\"a```b\"\x7d".toList) =
      some (JVal.obj [("note".toList, JVal.str ("a```b".toList))]) ∧
    cleanText ("\x7b\"note\":\"a```b\"\x7d".toList) = "\x7b\"note\":\"ab\"\x7d".toList ∧
    jsonParse (cleanText ("\x7b\"note\":\"a```b\"\x7d".toList)) =
      some (JVal.obj [("note".toList, JVal.str ("ab".toList))]) ∧
    ("a```b".toList : Str) ≠ "ab".toList := by
  refine ⟨?_, rfl, rfl, rfl, by decide⟩
  intro a b ha hl hb hj hh
  have main : ∀ pat : Str, pat.length ≠ 0 →
      (∀ m, cleanReplaceF (Nat.succ m) (pat ++ b) = b) →
      cleanReplace (a ++ pat ++ b) = a ++ b := by
    intro pat hpl hbound
    unfold cleanReplace
    rw [List.append_assoc]
    have hlen : (a ++ (pat ++ b)).length =
        a.length + (Nat.succ (pat.length - 1 + b.length)) := by
      simp only [List.length_append]
      omega
    rw [hlen, cleanReplaceF_scan a (pat ++ b) _ ha hl, hbound]
  exact ⟨main fence3 (by decide) (fun m => cleanReplaceF_fence3_boundary m b hb hj),
    main fj7 (by decide) (fun m => cleanReplaceF_fj7_boundary m b hb hh),
    main fj8 (by decide) (fun m => cleanReplaceF_fj8_boundary m b hb),
    main nf4 (by decide) (fun m => cleanReplaceF_nf4_boundary m b hb)⟩

/-- Witness for C9's universal part at concrete flanking text. -/
theorem c9_fence_strip_global_witness :
    cleanReplace ("x".toList ++ fence3 ++ "y".toList) = "x".toList ++ "y".toList ∧
    cleanReplace ("x".toList ++ fj7 ++ "y".toList) = "x".toList ++ "y".toList ∧
    cleanReplace ("x".toList ++ fj8 ++ "y".toList) = "x".toList ++ "y".toList ∧
    cleanReplace ("x".toList ++ nf4 ++ "y".toList) = "x".toList ++ "y".toList :=
  c9_fence_strip_global.1 ("x".toList) ("y".toList)
    (by decide) (by decide) (by decide) (by decide) (by decide)

/-- C10: extension handling is case-insensitive: lowercasing a path changes
neither validation nor MIME lookup; '.JPG' and '.Pdf' behave as their
lowercase forms; and the fileType metadata of every result is the
lowercased extension. -/
theorem c10_case_insensitive_extensions :
    (∀ p size, validateFile (p.map lowerChar) size = validateFile p size) ∧
    (∀ p, getMimeType (p.map lowerChar) = getMimeType p) ∧
    (getMimeType ("scan.JPG".toList) = .ok ("image/jpeg".toList) ∧
     getMimeType ("scan.jpg".toList) = .ok ("image/jpeg".toList) ∧
     getMimeType ("form.Pdf".toList) = .ok ("application/pdf".toList) ∧
     getMimeType ("form.pdf".toList) = .ok ("application/pdf".toList) ∧
     validateFile ("scan.JPG".toList) 100 = .ok () ∧
     validateFile ("form.Pdf".toList) 100 = .ok ()) ∧
    (∀ text p now, (normalizeResponse text p now).fileType = extLower p) := by
  refine ⟨?_, ?_, ⟨rfl, rfl, rfl, rfl, rfl, rfl⟩, ?_⟩
  · intro p size
    unfold validateFile
    rw [extLower_map_lower]
  · intro p
    unfold getMimeType
    rw [extLower_map_lower]
  · intro text p now
    unfold normalizeResponse
    cases jsonParse (cleanText text) with
    | none => rfl
    | some j => rfl

/-- Witness for C3 at concrete inputs: a small JPEG passes, an empty GIF
fails. -/
theorem c3_validateFile_characterization_witness :
    validateFile ("id.jpeg".toList) 5 = .ok () ∧
    validateFile ("id.gif".toList) 0 ≠ .ok () :=
  ⟨(c3_validateFile_characterization.1 ("id.jpeg".toList) 5).mpr
      ⟨by decide, by decide, by decide⟩,
    c3_validateFile_characterization.2.2.2 ("id.gif".toList)⟩
